import Mathlib

/-!
Verification of the rip-zip archiver (src/main.rs) against its
natural-language specification.

The development shallowly embeds the three core functions of the program:

* `sanitize_filename` — pure character-wise replacement (src/main.rs:129-137);
* `get_zip_path`      — the output-path planner with its collision-counter
  loop (src/main.rs:139-169), modelled over an explicit list of existing
  filesystem paths; the decimal rendering of the counter is modelled by a
  structural decimal printer `decRepr`;
* `create_zip`        — the archive builder (src/main.rs:68-127), modelled
  over an inductive filesystem tree together with the configured `walkdir`
  traversal (`follow_links(false)`, `same_file_system(true)`,
  `max_depth(100)`).

Machine strings are Lean `String`s (Rust `char` = Unicode scalar value =
Lean `Char`); the host path separator is an explicit parameter `sep`.
-/

/-- Rust `char::is_control`: the Unicode `Cc` category, i.e. U+0000..U+001F
and U+007F..U+009F. -/
def rustIsControl (c : Char) : Bool :=
  c.toNat < 0x20 || (0x7f ≤ c.toNat && c.toNat ≤ 0x9f)

/-- The first match arm of `sanitize_filename` (src/main.rs:132): the
literal character set replaced by an underscore. -/
def forbiddenChars : List Char :=
  ['\\', '/', ':', '*', '?', '"', '<', '>', '|', '\x00']

/-- One character of `sanitize_filename`'s `.map` closure
(src/main.rs:131-135), arm for arm. -/
def sanitizeChar (c : Char) : Char :=
  if c ∈ forbiddenChars then '_'
  else if rustIsControl c || c == '/' || c == '\\' then '_'
  else c

/-- `sanitize_filename` (src/main.rs:129-137): character-wise map over the
input's Unicode scalar values. -/
def sanitize_filename (s : String) : String :=
  String.mk (s.data.map sanitizeChar)

/-- The spec's wording of the replacement predicate: a character in the set
{\\, /, :, *, ?, ", <, >, |, NUL} or any control character. -/
def specBadChar (c : Char) : Bool :=
  (c ∈ ['\\', '/', ':', '*', '?', '"', '<', '>', '|', '\x00']) || rustIsControl c

/-- The sanitizer as the spec describes it: replace every bad character with
an underscore, leave every other character unchanged. -/
def sanitizeSpec (s : String) : String :=
  String.mk (s.data.map (fun c => if specBadChar c then '_' else c))

theorem sanitizeChar_eq_spec (c : Char) :
    sanitizeChar c = if specBadChar c then '_' else c := by
  by_cases h1 : c ∈ forbiddenChars
  · simp [sanitizeChar, specBadChar, h1, forbiddenChars] at *
    rcases h1 with h | h | h | h | h | h | h | h | h | h <;> simp [h]
  · have h2 : (c ∈ ['\\', '/', ':', '*', '?', '"', '<', '>', '|', '\x00']) = False := by
      simp only [forbiddenChars] at h1; simp [h1]
    by_cases h3 : rustIsControl c
    · simp [sanitizeChar, specBadChar, h1, h2, h3]
    · have h4 : c ≠ '/' ∧ c ≠ '\\' := by
        constructor <;> intro hc <;> exact h1 (by simp [forbiddenChars, hc])

      simp [sanitizeChar, specBadChar, h1, h2, h3, h4.1, h4.2]

/-- C5: for every input string, `sanitize_filename` returns the string
obtained by replacing each character in the forbidden set (backslash,
slash, colon, star, question mark, double quote, angle brackets, pipe,
NUL) or any control character by an underscore, leaving all other
characters unchanged. -/
theorem claim_C5_sanitize_matches_spec (s : String) :
    sanitize_filename s = sanitizeSpec s := by
  unfold sanitize_filename sanitizeSpec
  congr 1
  exact List.map_congr_left (fun c _ => sanitizeChar_eq_spec c)

theorem sanitizeChar_idem (c : Char) :
    sanitizeChar (sanitizeChar c) = sanitizeChar c := by
  by_cases h1 : c ∈ forbiddenChars
  · simp [sanitizeChar, h1]
  · by_cases h2 : rustIsControl c || c == '/' || c == '\\'
    · simp [sanitizeChar, h1, h2]
    · simp [sanitizeChar, h1, h2]

/-! ### Decimal rendering of the collision counter

`format!("{} ({}).zip", safe_name, counter)` renders the counter in
decimal.  `decRepr` is a structural (fuel-indexed) decimal printer for
`Nat`; its injectivity is what makes the collision loop terminate. -/

/-- ASCII decimal digit characters, as the Display implementation for
usize prints them. -/
def decDigitChar (d : Nat) : Char :=
  match d with
  | 0 => '0' | 1 => '1' | 2 => '2' | 3 => '3' | 4 => '4'
  | 5 => '5' | 6 => '6' | 7 => '7' | 8 => '8' | _ => '9'

/-- Numeric value of a decimal digit character. -/
def decDigitVal (c : Char) : Nat := c.toNat - 48

/-- Most-significant-first decimal digit list of `n`, with enough fuel. -/
def decChars : Nat → Nat → List Char
  | 0, _ => []
  | fuel+1, n =>
    if n < 10 then [decDigitChar n]
    else decChars fuel (n / 10) ++ [decDigitChar (n % 10)]

/-- The decimal rendering of a natural number. -/
def decRepr (n : Nat) : String := String.mk (decChars (n + 1) n)

/-- Value of a most-significant-first digit-character list. -/
def decVal (l : List Char) : Nat := l.foldl (fun a c => 10 * a + decDigitVal c) 0

theorem decDigitVal_decDigitChar : ∀ d, d < 10 → decDigitVal (decDigitChar d) = d := by decide

theorem decVal_decChars : ∀ fuel n, n < fuel → decVal (decChars fuel n) = n := by
  intro fuel
  induction fuel with
  | zero => intro n h; omega
  | succ fuel ih =>
    intro n h
    by_cases h10 : n < 10
    · simp only [decChars, if_pos h10, decVal, List.foldl]
      rw [decDigitVal_decDigitChar n h10]
      omega
    · have hrec : n / 10 < fuel := by omega
      simp only [decChars, if_neg h10]
      have hsplit : decVal (decChars fuel (n / 10) ++ [decDigitChar (n % 10)]) =
          10 * decVal (decChars fuel (n / 10)) + decDigitVal (decDigitChar (n % 10)) := by
        unfold decVal
        rw [List.foldl_append]
        rfl
      rw [hsplit, ih _ hrec, decDigitVal_decDigitChar (n % 10) (Nat.mod_lt _ (by omega))]
      omega

theorem decChars_inj {a b : Nat} (h : decChars (a + 1) a = decChars (b + 1) b) : a = b := by
  have ha := decVal_decChars (a + 1) a (by omega)
  have hb := decVal_decChars (b + 1) b (by omega)
  rw [h] at ha
  exact ha.symm.trans hb

theorem decRepr_inj {a b : Nat} (h : decRepr a = decRepr b) : a = b :=
  decChars_inj (congrArg String.data h)

/-- C9: `sanitize_filename` is idempotent and preserves the number of
characters of its input. -/
theorem claim_C9_sanitize_idem_length (s : String) :
    sanitize_filename (sanitize_filename s) = sanitize_filename s ∧
      (sanitize_filename s).length = s.length := by
  constructor
  · unfold sanitize_filename
    have hdata : (String.mk (s.data.map sanitizeChar)).data = s.data.map sanitizeChar := rfl
    rw [hdata, List.map_map]
    congr 1
    exact List.map_congr_left (fun c _ => sanitizeChar_idem c)
  · unfold sanitize_filename
    show (String.mk (s.data.map sanitizeChar)).data.length = s.data.length
    rw [show (String.mk (s.data.map sanitizeChar)).data = s.data.map sanitizeChar from rfl]
    exact List.length_map _ _

/-! ### Path planner: `get_zip_path` (src/main.rs:139-169)

The filesystem is modelled by the list `fs` of paths that exist
(`zip_path.exists()` is membership in `fs`).  The host path separator,
used by `PathBuf::push` / `with_file_name`, is the parameter `sep`.
`source_dir.file_name()` and `source_dir.parent()` are passed in as
`Option String`s, exactly the data the source reads from the path. -/

/-- `PathBuf::push` of a file name onto a directory path, with the host's
native separator. -/
def pathJoin (sep : Char) (dir name : String) : String :=
  dir ++ String.singleton sep ++ name

/-- `source_dir.file_name().unwrap_or(OsStr::new("archive"))` after lossy
string conversion (src/main.rs:140-143). -/
def dirNameOf (fileName? : Option String) : String := fileName?.getD "archive"

/-- The first candidate path built at src/main.rs:146-151 from the
sanitized base name.  In the source this binding is immediately shadowed
by the raw-name candidate and never used. -/
def sanitizedCandidate (sep : Char) (parent? fileName? : Option String) : String :=
  pathJoin sep (parent?.getD ".") (sanitize_filename (dirNameOf fileName?) ++ ".zip")

/-- The second, effective candidate path built at src/main.rs:153-158 from
the raw (unsanitized) base name. -/
def rawCandidate (sep : Char) (parent? fileName? : Option String) : String :=
  pathJoin sep (parent?.getD ".") (dirNameOf fileName? ++ ".zip")

/-- `original_zip_path.with_file_name(format!("{} ({}).zip", safe_name,
counter))` (src/main.rs:164): the numbered collision candidate, built from
the sanitized name. -/
def numberedCandidate (sep : Char) (parent? fileName? : Option String) (n : Nat) : String :=
  pathJoin sep (parent?.getD ".")
    (sanitize_filename (dirNameOf fileName?) ++ " (" ++ decRepr n ++ ").zip")

/-- The `while zip_path.exists()` loop of src/main.rs:161-166, written with
explicit fuel; `findFreeFuel_isSome` below shows that fuel
`fs.length + 1` always suffices, so the fuelled function is a faithful
model of the (terminating) source loop. -/
def findFreeFuel (fs : List String) (cand : Nat → String) : Nat → Nat → Option String
  | _, 0 => none
  | n, fuel+1 =>
    if cand n ∈ fs then findFreeFuel fs cand (n + 1) fuel else some (cand n)

/-- `get_zip_path` (src/main.rs:139-169).  The source first builds
`sanitizedCandidate` and immediately shadows it with `rawCandidate`
(see those definitions); the result is the first path among
`rawCandidate, numberedCandidate 1, numberedCandidate 2, ...` that does
not exist. -/
def get_zip_path (fs : List String) (sep : Char) (parent? fileName? : Option String) : String :=
  if rawCandidate sep parent? fileName? ∈ fs then
    (findFreeFuel fs (numberedCandidate sep parent? fileName?) 1 (fs.length + 1)).getD
      (rawCandidate sep parent? fileName?)
  else rawCandidate sep parent? fileName?

theorem findFreeFuel_some {fs : List String} {cand : Nat → String} :
    ∀ fuel n s, findFreeFuel fs cand n fuel = some s →
      s ∉ fs ∧ ∃ N, n ≤ N ∧ s = cand N ∧ ∀ m, n ≤ m → m < N → cand m ∈ fs := by
  intro fuel
  induction fuel with
  | zero => intro n s h; simp [findFreeFuel] at h
  | succ fuel ih =>
    intro n s h
    simp only [findFreeFuel] at h
    by_cases hc : cand n ∈ fs
    · rw [if_pos hc] at h
      obtain ⟨hs, N, hN, hsN, hmin⟩ := ih (n + 1) s h
      refine ⟨hs, N, by omega, hsN, ?_⟩
      intro m hm1 hm2
      by_cases hmn : m = n
      · rw [hmn]; exact hc
      · exact hmin m (by omega) hm2
    · rw [if_neg hc] at h
      obtain rfl : cand n = s := by injection h
      exact ⟨hc, n, le_refl n, rfl, by omega⟩

theorem findFreeFuel_none {fs : List String} {cand : Nat → String} :
    ∀ fuel n, findFreeFuel fs cand n fuel = none →
      ∀ m, n ≤ m → m < n + fuel → cand m ∈ fs := by
  intro fuel
  induction fuel with
  | zero => intro n _ m hm1 hm2; omega
  | succ fuel ih =>
    intro n h m hm1 hm2
    simp only [findFreeFuel] at h
    by_cases hc : cand n ∈ fs
    · rw [if_pos hc] at h
      by_cases hmn : m = n
      · rw [hmn]; exact hc
      · exact ih (n + 1) h m (by omega) (by omega)
    · rw [if_neg hc] at h
      exact absurd h (by simp)

theorem findFreeFuel_isSome (fs : List String) (cand : Nat → String)
    (hinj : ∀ m n, cand m = cand n → m = n) :
    findFreeFuel fs cand 1 (fs.length + 1) ≠ none := by
  intro hnone
  have hall := findFreeFuel_none (fs.length + 1) 1 hnone
  have hsub : (List.range' 1 (fs.length + 1)).map cand ⊆ fs := by
    intro x hx
    rcases List.mem_map.1 hx with ⟨m, hm, rfl⟩
    have hm' := List.mem_range'_1.1 hm
    exact hall m hm'.1 (by omega)
  have hnd : ((List.range' 1 (fs.length + 1)).map cand).Nodup :=
    (List.nodup_range' 1 (fs.length + 1) 1 (by decide)).map (fun a b hab => hinj a b hab)
  have hle := (List.subperm_of_subset hnd hsub).length_le
  rw [List.length_map, List.length_range'] at hle
  omega

theorem numberedCandidate_inj (sep : Char) (parent? fileName? : Option String) :
    ∀ m n, numberedCandidate sep parent? fileName? m =
      numberedCandidate sep parent? fileName? n → m = n := by
  intro m n h
  unfold numberedCandidate pathJoin at h
  have h' := congrArg String.data h
  simp only [String.data_append, List.append_assoc] at h'
  have h2 := List.append_cancel_left h'
  have h3 := List.append_cancel_left h2
  have h4 := List.append_cancel_left h3
  have h5 := List.append_cancel_left h4
  have h6 := List.append_cancel_right h5
  exact decChars_inj h6

theorem get_zip_path_not_mem (fs : List String) (sep : Char)
    (parent? fileName? : Option String) :
    get_zip_path fs sep parent? fileName? ∉ fs := by
  unfold get_zip_path
  by_cases h : rawCandidate sep parent? fileName? ∈ fs
  · rw [if_pos h]
    cases hf : findFreeFuel fs (numberedCandidate sep parent? fileName?) 1 (fs.length + 1) with
    | none =>
      exact absurd hf (findFreeFuel_isSome fs _ (numberedCandidate_inj sep parent? fileName?))
    | some s =>
      simp only [Option.getD_some]
      exact (findFreeFuel_some _ _ _ hf).1
  · rw [if_neg h]; exact h

/-- C3: on a collision (`rawCandidate` exists), `get_zip_path` returns a
numbered candidate built from the sanitized name, with the counter
starting at 1 and every smaller counter value colliding; the returned
path never names an existing file, and a repeated call after the prior
result has been materialized returns a strictly different path. -/
theorem claim_C3_collision_counter (fs : List String) (sep : Char)
    (parent? fileName? : Option String)
    (h : rawCandidate sep parent? fileName? ∈ fs) :
    get_zip_path fs sep parent? fileName? ∉ fs ∧
      (∃ N, 1 ≤ N ∧
        get_zip_path fs sep parent? fileName? = numberedCandidate sep parent? fileName? N ∧
        numberedCandidate sep parent? fileName? N ∉ fs ∧
        ∀ m, 1 ≤ m → m < N → numberedCandidate sep parent? fileName? m ∈ fs) ∧
      get_zip_path (get_zip_path fs sep parent? fileName? :: fs) sep parent? fileName? ≠
        get_zip_path fs sep parent? fileName? := by
  refine ⟨get_zip_path_not_mem fs sep parent? fileName?, ?_, ?_⟩
  · unfold get_zip_path
    rw [if_pos h]
    cases hf : findFreeFuel fs (numberedCandidate sep parent? fileName?) 1 (fs.length + 1) with
    | none =>
      exact absurd hf (findFreeFuel_isSome fs _ (numberedCandidate_inj sep parent? fileName?))
    | some s =>
      obtain ⟨hs, N, hN1, hsN, hmin⟩ := findFreeFuel_some _ _ _ hf
      refine ⟨N, hN1, ?_, ?_, hmin⟩
      · simp only [Option.getD_some]; exact hsN
      · rw [← hsN]; exact hs
  · intro heq
    have h1 := get_zip_path_not_mem
      (get_zip_path fs sep parent? fileName? :: fs) sep parent? fileName?
    exact h1 (by rw [heq]; exact List.mem_cons_self _ _)

theorem claim_C3_collision_counter_witness :
    rawCandidate '/' (some "p") (some "d") ∈ ["p/d.zip"] ∧
      (get_zip_path ["p/d.zip"] '/' (some "p") (some "d") ∉ ["p/d.zip"] ∧
        (∃ N, 1 ≤ N ∧
          get_zip_path ["p/d.zip"] '/' (some "p") (some "d") =
            numberedCandidate '/' (some "p") (some "d") N ∧
          numberedCandidate '/' (some "p") (some "d") N ∉ ["p/d.zip"] ∧
          ∀ m, 1 ≤ m → m < N → numberedCandidate '/' (some "p") (some "d") m ∈ ["p/d.zip"]) ∧
        get_zip_path (get_zip_path ["p/d.zip"] '/' (some "p") (some "d") :: ["p/d.zip"])
            '/' (some "p") (some "d") ≠
          get_zip_path ["p/d.zip"] '/' (some "p") (some "d")) :=
  ⟨by decide, claim_C3_collision_counter ["p/d.zip"] '/' (some "p") (some "d") (by decide)⟩

/-- C4: when the raw-name candidate does not exist, `get_zip_path` returns
exactly that candidate: the parent directory (current directory when the
source has no parent) joined with the unsanitized base name (label
"archive" when the source has no final component) plus ".zip"; the
sanitized first candidate has no influence on the result. -/
theorem claim_C4_raw_primary_candidate (fs : List String) (sep : Char)
    (parent? fileName? : Option String)
    (h : rawCandidate sep parent? fileName? ∉ fs) :
    get_zip_path fs sep parent? fileName? = rawCandidate sep parent? fileName? ∧
      rawCandidate sep parent? fileName? =
        pathJoin sep (parent?.getD ".") (fileName?.getD "archive" ++ ".zip") :=
  ⟨by unfold get_zip_path; rw [if_neg h], rfl⟩

theorem claim_C4_raw_primary_candidate_witness :
    rawCandidate '/' none (some "a:b") ∉ ([] : List String) ∧
      (get_zip_path [] '/' none (some "a:b") = rawCandidate '/' none (some "a:b") ∧
        rawCandidate '/' none (some "a:b") =
          pathJoin '/' ((none : Option String).getD ".")
            ((some "a:b").getD "archive" ++ ".zip")) :=
  ⟨by decide, claim_C4_raw_primary_candidate [] '/' none (some "a:b") (by decide)⟩

/-! ### Archive builder: `create_zip` (src/main.rs:68-127)

The source tree is an inductive value; a directory node carries the
device id that `same_file_system(true)` compares.  `follow_links(false)`
means the walk never reads through a symbolic link, so a symlink is a
leaf carrying only what the link resolves to (which is what the separate
`path.is_file()` stat, which does follow links, inspects).  The walk is
bounded by `max_depth(100)`; it is modelled with a descent budget
`100 - depth`, making the recursion structural. -/

/-- What a symbolic link resolves to. -/
inductive SymTarget where
  | toFile (size : Nat)
  | toDir
  | broken

/-- A filesystem node: regular file, symbolic link, or directory with a
device id and children. -/
inductive Entry where
  | file (name : String) (size : Nat)
  | symlink (name : String) (target : SymTarget)
  | dir (name : String) (dev : Nat) (children : List Entry)

/-- The file name of a directory entry. -/
def Entry.name : Entry → String
  | .file n _ => n
  | .symlink n _ => n
  | .dir n _ _ => n

/-- Rust `Path::is_file` (src/main.rs:98): stat follows symbolic links, so
this is true exactly when the entry resolves to a regular file — also for
a symlink whose target is a regular file. -/
def resolvedIsFile : Entry → Bool
  | .file _ _ => true
  | .symlink _ (SymTarget.toFile _) => true
  | _ => false

/-- Byte length of the resolved regular file (what `io::copy` streams). -/
def resolvedSize : Entry → Nat
  | .file _ s => s
  | .symlink _ (SymTarget.toFile s) => s
  | _ => 0

/-- One yielded item of the walkdir iterator: its depth, its path relative
to the traversal root (as a component list), and the node found there. -/
structure WalkEntry where
  depth : Nat
  rpath : List String
  node : Entry

/-- The walkdir iterator configured at src/main.rs:89-92
(`follow_links(false)`, `same_file_system(true)`, `max_depth(100)`):
every entry yields itself; a directory additionally yields its children
when the descent budget is not exhausted (depth below 100) and its device
equals the traversal root's (`same_file_system`).  Symbolic links are
leaves: they are never followed. -/
def walkFrom (rootDev : Nat) : Nat → Nat → List String → Entry → List WalkEntry
  | _, d, rp, Entry.file n s => [⟨d, rp, Entry.file n s⟩]
  | _, d, rp, Entry.symlink n t => [⟨d, rp, Entry.symlink n t⟩]
  | 0, d, rp, Entry.dir n dev cs => [⟨d, rp, Entry.dir n dev cs⟩]
  | budget+1, d, rp, Entry.dir n dev cs =>
    ⟨d, rp, Entry.dir n dev cs⟩ ::
      (if dev = rootDev then
        cs.flatMap (fun c => walkFrom rootDev budget (d + 1) (rp ++ [c.name]) c)
      else [])

/-- The full traversal from the root: depth 0, empty relative path, budget
100 (the `max_depth(100)` ceiling). -/
def walkdirEntries (root : Entry) (rootDev : Nat) : List WalkEntry :=
  walkFrom rootDev 100 0 [] root

/-- The compression methods the source mentions. -/
inductive CompressionMethod where
  | stored
  | deflated
deriving DecidableEq

/-- The per-member options of the zip writer that the source configures. -/
structure SimpleFileOptions where
  compression : CompressionMethod
  unixPermissions : Option Nat
  largeFile : Bool
deriving DecidableEq

/-- `SimpleFileOptions::default()`: deflate compression, no explicit Unix
permissions, large-file (ZIP64) off. -/
def SimpleFileOptions.default : SimpleFileOptions :=
  ⟨CompressionMethod.deflated, none, false⟩

/-- Builder method `.compression_method(..)`. -/
def SimpleFileOptions.compression_method
    (o : SimpleFileOptions) (m : CompressionMethod) : SimpleFileOptions :=
  { o with compression := m }

/-- Builder method `.unix_permissions(..)`. -/
def SimpleFileOptions.unix_permissions (o : SimpleFileOptions) (p : Nat) : SimpleFileOptions :=
  { o with unixPermissions := some p }

/-- Builder method `.large_file(..)`. -/
def SimpleFileOptions.large_file (o : SimpleFileOptions) (b : Bool) : SimpleFileOptions :=
  { o with largeFile := b }

/-- The options value built once at src/main.rs:83-86 and passed to every
`start_file` call: deflate, permission bits 0o755, large-file flag equal
to the `--zip64` switch. -/
def buildOptions (useZip64 : Bool) : SimpleFileOptions :=
  ((SimpleFileOptions.default.compression_method CompressionMethod.deflated).unix_permissions
      0o755).large_file useZip64

/-- One registered archive member: its textual name, the byte length of
the streamed content, the options passed to `start_file`, and the
Unicode/UTF-8 name flag the writer records. -/
structure Member where
  name : String
  size : Nat
  options : SimpleFileOptions
  utf8NameFlag : Bool
deriving DecidableEq

/-- Modelled from the spec: the archive-writing library's member
registration (`start_file`, collaborator contract of spec section 6).
The library is not part of src/; per the spec it stores the name it is
given as UTF-8 and flags it as such, so non-ASCII names round-trip. -/
def start_file (name : String) (size : Nat) (o : SimpleFileOptions) : Member :=
  ⟨name, size, o, true⟩

/-- The per-entry body of the traversal loop (src/main.rs:94-123): keep
entries passing `path.is_file()` (which follows symlinks); skip any
relative path containing a parent-directory (`..`) component and continue;
render the member name from the relative path's components joined by the
host separator (`Path::to_str` of the walkdir-built path); register the
member with the fixed options. -/
def zipMembers (sep : Char) (root : Entry) (rootDev : Nat) (useZip64 : Bool) : List Member :=
  (walkdirEntries root rootDev).filterMap fun we =>
    if resolvedIsFile we.node then
      if we.rpath.contains ".." then none
      else
        some (start_file (String.intercalate (String.singleton sep) we.rpath)
          (resolvedSize we.node) (buildOptions useZip64))
    else none

/-- The error kinds of the source's ZipError wrapper. -/
inductive ZipErrKind where
  | notFound
  | ioError
  | pathError
  | zipFormatError
deriving DecidableEq

/-- Outcome of one `create_zip` call: the typed result, whether
`File::create(target_zip)` was executed, and the registered members. -/
structure ZipOutcome where
  result : Except ZipErrKind Unit
  destCreated : Bool
  members : List Member

/-- `create_zip` (src/main.rs:68-127) over the modelled filesystem.
`source?` is what the filesystem holds at `source_dir` — `none` when the
path does not exist — together with the device id of the traversal root.
The existence check at src/main.rs:69-74 runs before
`File::create(target_zip)` at src/main.rs:80, so on a missing source the
destination is never created. -/
def create_zip (sep : Char) (source? : Option (Entry × Nat)) (useZip64 : Bool) : ZipOutcome :=
  match source? with
  | none => ⟨Except.error ZipErrKind.notFound, false, []⟩
  | some (root, rootDev) => ⟨Except.ok (), true, zipMembers sep root rootDev useZip64⟩

theorem mem_zipMembers {sep : Char} {root : Entry} {rootDev : Nat} {useZip64 : Bool}
    {m : Member} :
    m ∈ zipMembers sep root rootDev useZip64 ↔
      ∃ we ∈ walkdirEntries root rootDev,
        resolvedIsFile we.node = true ∧ we.rpath.contains ".." = false ∧
        m = start_file (String.intercalate (String.singleton sep) we.rpath)
              (resolvedSize we.node) (buildOptions useZip64) := by
  unfold zipMembers
  rw [List.mem_filterMap]
  constructor
  · rintro ⟨we, hwe, h⟩
    by_cases h1 : resolvedIsFile we.node = true
    · rw [if_pos h1] at h
      by_cases h2 : we.rpath.contains ".." = true
      · rw [if_pos h2] at h
        exact absurd h (by simp)
      · rw [if_neg h2] at h
        refine ⟨we, hwe, h1, by rw [Bool.not_eq_true] at h2; exact h2, ?_⟩
        exact (Option.some_inj.1 h).symm
    · rw [if_neg h1] at h
      exact absurd h (by simp)
  · rintro ⟨we, hwe, h1, h2, rfl⟩
    refine ⟨we, hwe, ?_⟩
    have h2' : ¬ (we.rpath.contains ".." = true) := by rw [h2]; simp
    rw [if_pos h1, if_neg h2']

theorem walkFrom_depth_le (rootDev : Nat) :
    ∀ budget d rp e, ∀ we ∈ walkFrom rootDev budget d rp e, we.depth ≤ d + budget := by
  intro budget
  induction budget with
  | zero =>
    intro d rp e we hwe
    cases e with
    | file nm s =>
      simp only [walkFrom, List.mem_singleton] at hwe
      subst hwe; show d ≤ d + 0; omega
    | symlink nm t =>
      simp only [walkFrom, List.mem_singleton] at hwe
      subst hwe; show d ≤ d + 0; omega
    | dir nm dev cs =>
      simp only [walkFrom, List.mem_singleton] at hwe
      subst hwe; show d ≤ d + 0; omega
  | succ budget ih =>
    intro d rp e we hwe
    cases e with
    | file nm s =>
      simp only [walkFrom, List.mem_singleton] at hwe
      subst hwe; show d ≤ d + (budget + 1); omega
    | symlink nm t =>
      simp only [walkFrom, List.mem_singleton] at hwe
      subst hwe; show d ≤ d + (budget + 1); omega
    | dir nm dev cs =>
      simp only [walkFrom] at hwe
      rcases List.mem_cons.1 hwe with rfl | h
      · show d ≤ d + (budget + 1); omega
      · by_cases hdev : dev = rootDev
        · rw [if_pos hdev] at h
          rcases List.mem_flatMap.1 h with ⟨c, _, hwc⟩
          have := ih (d + 1) (rp ++ [c.name]) c we hwc
          omega
        · rw [if_neg hdev] at h
          exact absurd h (by simp)

/-- C8: the traversal is a total function of the finite source tree (it
terminates by construction); every yielded entry has depth at most 100; a
directory whose descent budget is exhausted (reached depth 100) yields
only itself and is not descended into; and a directory on a different
device than the traversal root yields only itself, so the walk never
crosses a filesystem/mount boundary. -/
theorem claim_C8_depth_cap_and_same_fs (rootDev : Nat) :
    (∀ root, ∀ we ∈ walkdirEntries root rootDev, we.depth ≤ 100) ∧
      (∀ d rp nm dev cs,
        walkFrom rootDev 0 d rp (Entry.dir nm dev cs) = [⟨d, rp, Entry.dir nm dev cs⟩]) ∧
      (∀ budget d rp nm dev cs, dev ≠ rootDev →
        walkFrom rootDev budget d rp (Entry.dir nm dev cs) =
          [⟨d, rp, Entry.dir nm dev cs⟩]) := by
  refine ⟨?_, ?_, ?_⟩
  · intro root we hwe
    have := walkFrom_depth_le rootDev 100 0 [] root we hwe
    omega
  · intro d rp nm dev cs; rfl
  · intro budget d rp nm dev cs hdev
    cases budget with
    | zero => rfl
    | succ budget => simp [walkFrom, hdev]

theorem claim_C8_depth_cap_and_same_fs_witness :
    (1 : Nat) ≠ 0 ∧
      walkFrom 0 5 3 ["x"] (Entry.dir "mnt" 1 []) = [⟨3, ["x"], Entry.dir "mnt" 1 []⟩] :=
  ⟨by decide, (claim_C8_depth_cap_and_same_fs 0).2.2 5 3 ["x"] "mnt" 1 [] (by decide)⟩

/-- C6: when the source directory does not exist, `create_zip` fails with
a NotFound error, and the destination file has not been created (the
existence check precedes `File::create`). -/
theorem claim_C6_notfound_no_dest (sep : Char) (useZip64 : Bool)
    (source? : Option (Entry × Nat)) (h : source? = none) :
    (create_zip sep source? useZip64).result = Except.error ZipErrKind.notFound ∧
      (create_zip sep source? useZip64).destCreated = false := by
  subst h
  exact ⟨rfl, rfl⟩

theorem claim_C6_notfound_no_dest_witness :
    (none : Option (Entry × Nat)) = none ∧
      ((create_zip '/' none false).result = Except.error ZipErrKind.notFound ∧
        (create_zip '/' none false).destCreated = false) :=
  ⟨rfl, claim_C6_notfound_no_dest '/' false none rfl⟩

/-- C10: `create_zip` enforces only existence of the source path: an
existing regular-file (non-directory) source is not rejected with
NotFound, and the destination archive file is created. -/
theorem claim_C10_regular_file_source (sep : Char) (useZip64 : Bool)
    (nm : String) (sz dev : Nat) :
    (create_zip sep (some (Entry.file nm sz, dev)) useZip64).result ≠
        Except.error ZipErrKind.notFound ∧
      (create_zip sep (some (Entry.file nm sz, dev)) useZip64).destCreated = true := by
  constructor
  · intro hcontra
    have hres : (create_zip sep (some (Entry.file nm sz, dev)) useZip64).result =
        Except.ok () := rfl
    rw [hres] at hcontra
    exact Except.noConfusion hcontra
  · rfl

/-- The per-member option policy exactly as claim C7 states it: deflate
compression, Unix permission bits 0o755, the Unicode/UTF-8 name flag set,
and the ZIP64/large-file extension enabled when the caller requests it OR
when the entry's size exceeds the standard format's 4 GiB (2^32 - 1 byte)
addressing limit. -/
def claimedOptionPolicy (useZip64 : Bool) (m : Member) : Prop :=
  m.options.compression = CompressionMethod.deflated ∧
    m.options.unixPermissions = some 0o755 ∧
    m.utf8NameFlag = true ∧
    (m.options.largeFile = true ↔ (useZip64 = true ∨ 2 ^ 32 - 1 < m.size))

/-- C7: counterexample: with large-file support not requested and an entry
of 2^32 bytes (exceeding the 4 GiB limit), the registered options still
have the large-file extension off — the per-entry size is never
consulted (src/main.rs:83-86 builds one fixed options value). -/
theorem claim_C7_counterexample :
    ∃ m ∈ zipMembers '/' (Entry.dir "d" 0 [Entry.file "big.bin" (2 ^ 32)]) 0 false,
      ¬ claimedOptionPolicy false m := by
  refine ⟨⟨"big.bin", 2 ^ 32, ⟨CompressionMethod.deflated, some 0o755, false⟩, true⟩, ?_, ?_⟩
  · decide
  · intro h
    have h4 := h.2.2.2
    have : (2 : Nat) ^ 32 - 1 < 2 ^ 32 := by norm_num
    have hcontra := h4.2 (Or.inr this)
    exact Bool.noConfusion hcontra

/-- C7 amended: every archive member is registered with fixed options —
deflate compression, Unix permission bits 0o755, the Unicode/UTF-8 name
flag — and with the large-file (ZIP64) extension enabled exactly when the
caller requests it; the entry's size plays no role. -/
theorem claim_C7_amended_fixed_options (sep : Char) (root : Entry) (rootDev : Nat)
    (useZip64 : Bool) :
    ∀ m ∈ zipMembers sep root rootDev useZip64,
      m.options.compression = CompressionMethod.deflated ∧
        m.options.unixPermissions = some 0o755 ∧
        m.utf8NameFlag = true ∧
        m.options.largeFile = useZip64 := by
  intro m hm
  rcases mem_zipMembers.1 hm with ⟨we, _, _, _, rfl⟩
  exact ⟨rfl, rfl, rfl, rfl⟩

theorem claim_C7_amended_fixed_options_witness :
    (⟨"a.txt", 3, ⟨CompressionMethod.deflated, some 0o755, true⟩, true⟩ : Member) ∈
        zipMembers '/' (Entry.dir "d" 0 [Entry.file "a.txt" 3]) 0 true ∧
      ((⟨"a.txt", 3, ⟨CompressionMethod.deflated, some 0o755, true⟩, true⟩ :
          Member).options.compression = CompressionMethod.deflated ∧
        (⟨"a.txt", 3, ⟨CompressionMethod.deflated, some 0o755, true⟩, true⟩ :
          Member).options.unixPermissions = some 0o755 ∧
        (⟨"a.txt", 3, ⟨CompressionMethod.deflated, some 0o755, true⟩, true⟩ :
          Member).utf8NameFlag = true ∧
        (⟨"a.txt", 3, ⟨CompressionMethod.deflated, some 0o755, true⟩, true⟩ :
          Member).options.largeFile = true) :=
  ⟨by decide,
    claim_C7_amended_fixed_options '/' (Entry.dir "d" 0 [Entry.file "a.txt" 3]) 0 true
      _ (by decide)⟩

/-- C2: counterexample: an entry that is a symbolic link whose target
resolves to a regular file passes the `path.is_file()` check
(src/main.rs:98, which follows links) and IS added as an archive member,
contradicting the claim that symlink entries are never included. -/
theorem claim_C2_counterexample :
    "s" ∈ (zipMembers '/' (Entry.dir "d" 0 [Entry.symlink "s" (SymTarget.toFile 5)]) 0
        false).map Member.name := by
  decide

/-- C2 amended: symbolic links are never followed during traversal — a
symlink node contributes exactly itself to the walk, whatever it points
to, so link cycles cannot cause infinite recursion — and every archive
member arises from a walk entry whose resolved target is a regular file;
in particular a symlink resolving to a regular file is added as a member
(with its target's byte length), while symlinks to directories or broken
links are not. -/
theorem claim_C2_amended_symlink_policy (rootDev : Nat) :
    (∀ budget d rp nm tgt,
      walkFrom rootDev budget d rp (Entry.symlink nm tgt) = [⟨d, rp, Entry.symlink nm tgt⟩]) ∧
      (∀ sep root useZip64 m, m ∈ zipMembers sep root rootDev useZip64 →
        ∃ we ∈ walkdirEntries root rootDev,
          resolvedIsFile we.node = true ∧
          m.name = String.intercalate (String.singleton sep) we.rpath ∧
          m.size = resolvedSize we.node) := by
  constructor
  · intro budget d rp nm tgt
    cases budget <;> rfl
  · intro sep root useZip64 m hm
    rcases mem_zipMembers.1 hm with ⟨we, hwe, h1, _, rfl⟩
    exact ⟨we, hwe, h1, rfl, rfl⟩

theorem claim_C2_amended_symlink_policy_witness :
    (⟨"s", 5, ⟨CompressionMethod.deflated, some 0o755, false⟩, true⟩ : Member) ∈
        zipMembers '/' (Entry.dir "d" 0 [Entry.symlink "s" (SymTarget.toFile 5)]) 0 false ∧
      ∃ we ∈ walkdirEntries (Entry.dir "d" 0 [Entry.symlink "s" (SymTarget.toFile 5)]) 0,
        resolvedIsFile we.node = true ∧
        (⟨"s", 5, ⟨CompressionMethod.deflated, some 0o755, false⟩, true⟩ : Member).name =
          String.intercalate (String.singleton '/') we.rpath ∧
        (⟨"s", 5, ⟨CompressionMethod.deflated, some 0o755, false⟩, true⟩ : Member).size =
          resolvedSize we.node :=
  ⟨by decide,
    (claim_C2_amended_symlink_policy 0).2 '/'
      (Entry.dir "d" 0 [Entry.symlink "s" (SymTarget.toFile 5)]) false _ (by decide)⟩

/-- C1: evaluation at the failing input: on a host whose native path
separator is a backslash, the member name written for a nested file is
backslash-separated (`Path::to_str` at src/main.rs:109 renders the
relative path with the native separator); it is not the
forward-slash-separated name that the claim — and the crate's own tests,
which assert that no member name contains a backslash — require. -/
theorem claim_C1_backslash_member_name :
    (zipMembers '\\' (Entry.dir "docs" 0 [Entry.dir "sub" 0 [Entry.file "b.txt" 20]]) 0
        false).map Member.name = ["sub\\b.txt"] ∧
      '\\' ∈ "sub\\b.txt".data ∧ '/' ∉ "sub\\b.txt".data := by
  refine ⟨by decide, by decide, by decide⟩
